import Mathlib

/-!
Verification of the terminal side-scroller in `game.py` against its
natural-language specification.

The per-level game loop (`play_level`) is embedded shallowly: one tick of the
loop body becomes the pure function `play_level_tick` over an explicit
`LevelState`, with the nondeterministic inputs of a tick (wall-clock time,
the polled key, the two random draws) passed in as a `TickInput` record.
Python floats are modelled as exact rationals (all constants of the program
are exactly representable, and every value the proofs depend on is far from
a rounding boundary, as checked against IEEE double semantics), machine
integers as `Int`, and audio playback as an observable list of `Cue` values
emitted by each tick.
-/

set_option autoImplicit false

/-! ### Configuration constants (game.py lines 9-16) -/

def INITIAL_SPAWN_RATE : ℚ := 1/5

def MAX_SPAWN_RATE : ℚ := 1

def SPAWN_INCREASE : ℚ := 1/20

def GRAVITY : ℤ := 1

def JUMP_VELOCITY : ℤ := -5

def SPEED_UP_INTERVAL : ℚ := 10

def LEVEL_COUNT : ℤ := 3

/-! ### Audio cues

`play_tone(freq, duration_ms, block)` performs I/O; the observable content of
a call is the frequency, the duration and the blocking flag, recorded as a
`Cue`.  The sample buffer it synthesizes is modelled separately below. -/

/-- One call to `play_tone`: frequency in Hz, duration in ms, blocking flag. -/
structure Cue where
  freq : ℤ
  duration_ms : ℤ
  blocking : Bool
deriving DecidableEq

/-- Truncation toward zero, the semantics of Python `int(...)` on a
nonnegative or negative rational. -/
def ratTrunc (x : ℚ) : ℤ := if 0 ≤ x then ⌊x⌋ else ⌈x⌉

/-- The jump cue `play_tone(700, 100, block=False)` (game.py line 94). -/
def jumpCue : Cue := ⟨700, 100, false⟩

/-- The hit cue `play_tone(300, 100, block=False)` (game.py line 120). -/
def hitCue : Cue := ⟨300, 100, false⟩

/-- `play_success_sound` (game.py lines 33-37): three blocking tones,
frequencies `[500, int(500*1.5), int(500*1.5*1.5)]`, 200 ms each. -/
def play_success_sound : List Cue :=
  [⟨500, 200, true⟩,
   ⟨ratTrunc (500 * (3/2)), 200, true⟩,
   ⟨ratTrunc (500 * (3/2) * (3/2)), 200, true⟩]

/-- `play_fail_sound` (game.py lines 40-50): three blocking tones,
frequencies `[450, int(450*(1-0.33)), int(450*(1-0.33)*(1-0.33))]`,
durations 660, 660, 1000 ms.  The IEEE-double products `450*(1-0.33)`
and `450*(1-0.33)**2` truncate to the same integers as the exact
rationals (301 and 202), so the rational model is faithful. -/
def play_fail_sound : List Cue :=
  [⟨450, 660, true⟩,
   ⟨ratTrunc (450 * (1 - 33/100)), 660, true⟩,
   ⟨ratTrunc (450 * (1 - 33/100) * (1 - 33/100)), 1000, true⟩]

/-! ### Level state and tick inputs -/

/-- An obstacle `{'row': r, 'col': c}` (game.py line 110). -/
structure Obstacle where
  row : ℤ
  col : ℤ
deriving DecidableEq

/-- The mutable state of `play_level` (game.py lines 54-64). -/
structure LevelState where
  char_x : ℤ
  char_y : ℤ
  vy : ℤ
  on_ground : Bool
  lines : List Obstacle
  speed : ℤ
  spawn_rate : ℚ
  hits_remaining : ℤ
  speed_ups : ℕ
  last_speed_time : ℚ
deriving DecidableEq

/-- The key returned by one non-blocking `stdscr.getch()` poll, abstracted to
the five cases the loop distinguishes (game.py lines 85-92). -/
inductive Key where
  | quit
  | left
  | right
  | space
  | other
deriving DecidableEq

/-- The nondeterministic inputs consumed by one iteration of the loop:
`time.time()` at tick start, the polled key, the `random.random()` draw for
the spawn trial and the `random.randint(1, sh-3)` draw for the spawn row. -/
structure TickInput where
  now : ℚ
  key : Key
  draw : ℚ
  row : ℤ
deriving DecidableEq

/-- Initialisation of `play_level(stdscr, level_num, carry_lives)`
(game.py lines 54-64); `t0` is the `time.time()` value taken at line 64
and `sw // 4` is Python floor division. -/
def play_level_init (sh sw level_num carry_lives : ℤ) (t0 : ℚ) : LevelState :=
  { char_x := Int.fdiv sw 4
    char_y := sh - 2
    vy := 0
    on_ground := true
    lines := []
    speed := level_num
    spawn_rate := min MAX_SPAWN_RATE (INITIAL_SPAWN_RATE + ((level_num : ℚ) - 1) * (1/10))
    hits_remaining := 1 + carry_lives
    speed_ups := 0
    last_speed_time := t0 }

/-! ### The phases of one tick -/

/-- Speed-up phase (game.py lines 70-82).  Returns the updated state and a
flag that is `true` exactly when the level-complete return at line 82 fires. -/
def speedup_phase (now : ℚ) (s : LevelState) : LevelState × Bool :=
  if now - s.last_speed_time > SPEED_UP_INTERVAL then
    ({ s with
        speed := s.speed + 1
        spawn_rate := min MAX_SPAWN_RATE (s.spawn_rate + SPAWN_INCREASE)
        speed_ups := s.speed_ups + 1
        last_speed_time := now },
      decide (3 ≤ s.speed_ups + 1))
  else (s, false)

/-- Input phase for a non-quit key (game.py lines 88-96): left/right move
clamped to `[1, sw-2]`, space jumps only when `on_ground`, emitting the
non-blocking jump cue. -/
def input_phase (sw : ℤ) (k : Key) (s : LevelState) : LevelState × List Cue :=
  match k with
  | Key.left => (if 1 < s.char_x then { s with char_x := s.char_x - 1 } else s, [])
  | Key.right => (if s.char_x < sw - 2 then { s with char_x := s.char_x + 1 } else s, [])
  | Key.space =>
      if s.on_ground then
        ({ s with vy := JUMP_VELOCITY, on_ground := false }, [jumpCue])
      else (s, [])
  | _ => (s, [])

/-- Gravity phase (game.py lines 98-105): only acts when airborne; position
then velocity are updated, and the player snaps to the ground row `sh-2`
when at or below it.  There is no clamp at the top of the playfield. -/
def gravity_phase (sh : ℤ) (s : LevelState) : LevelState :=
  if s.on_ground then s
  else if sh - 2 ≤ s.char_y + s.vy then
    { s with char_y := sh - 2, vy := 0, on_ground := true }
  else { s with char_y := s.char_y + s.vy, vy := s.vy + GRAVITY }

/-- Spawn phase (game.py lines 107-110): one uniform draw; when it is below
the spawn rate a new obstacle is appended at column `sw - 2` with the row
drawn by `random.randint(1, sh-3)` (passed in as `row`). -/
def spawn_phase (sw : ℤ) (draw rate : ℚ) (row : ℤ) (ls : List Obstacle) : List Obstacle :=
  if draw < rate then ls ++ [⟨row, sw - 2⟩] else ls

/-- The support of the spawn-row draw `random.randint(1, sh-3)`
(game.py line 109): the integers from 1 to `sh-3` inclusive. -/
def spawnRowSupport (sh : ℤ) : Finset ℤ := Finset.Icc 1 (sh - 3)

/-- Obstacle advance (game.py lines 112-113): every column decreases by the
current speed. -/
def move_obstacles (speed : ℤ) (ls : List Obstacle) : List Obstacle :=
  ls.map fun ln => ⟨ln.row, ln.col - speed⟩

/-- Obstacle pruning (game.py line 114): keep obstacles with positive column. -/
def prune_obstacles (ls : List Obstacle) : List Obstacle :=
  ls.filter fun ln => decide (0 < ln.col)

/-- `lines.remove(ln)`: delete the first occurrence equal to `a`. -/
def removeFirst : List Obstacle → Obstacle → List Obstacle
  | [], _ => []
  | x :: xs, a => if x = a then xs else x :: removeFirst xs a

/-- Result of the collision pass: either the level continues with updated
obstacle list and hit budget, or the game-over return at line 131 fires. -/
inductive CollideRes where
  | alive (lines : List Obstacle) (hits_remaining : ℤ) (cues : List Cue)
  | dead (cues : List Cue)
deriving DecidableEq

/-- Collision phase (game.py lines 117-131): iterate over a snapshot
`list(lines)` of the obstacle list; each obstacle at the player's exact
position fires the non-blocking hit cue, then either consumes a hit
(removing the first equal entry from the live list) or, with no hits left,
plays the blocking fail motif and ends the level. -/
def collide_phase (px py : ℤ) : List Obstacle → List Obstacle → ℤ → CollideRes
  | [], lines, hits => CollideRes.alive lines hits []
  | ln :: rest, lines, hits =>
      if ln.col = px ∧ ln.row = py then
        if 0 < hits then
          match collide_phase px py rest (removeFirst lines ln) (hits - 1) with
          | CollideRes.alive l h c => CollideRes.alive l h (hitCue :: c)
          | CollideRes.dead c => CollideRes.dead (hitCue :: c)
        else CollideRes.dead (hitCue :: play_fail_sound)
      else collide_phase px py rest lines hits

/-- Outcome of one tick: either the loop continues with a new state, or
`play_level` returns `(completed, hits_remaining)`. -/
inductive TickOutcome where
  | cont (s : LevelState)
  | done (completed : Bool) (hits_remaining : ℤ)
deriving DecidableEq

/-- One iteration of the `while True` loop of `play_level`
(game.py lines 66-148), with the cues emitted during the tick. -/
def play_level_tick (sh sw : ℤ) (inp : TickInput) (s : LevelState) :
    TickOutcome × List Cue :=
  let su := speedup_phase inp.now s
  if su.2 then (TickOutcome.done true su.1.hits_remaining, play_success_sound)
  else match inp.key with
  | Key.quit => (TickOutcome.done false su.1.hits_remaining, [])
  | k =>
    let ic := input_phase sw k su.1
    let s3 := gravity_phase sh ic.1
    let ls := prune_obstacles (move_obstacles s3.speed
                (spawn_phase sw inp.draw s3.spawn_rate inp.row s3.lines))
    match collide_phase s3.char_x s3.char_y ls ls s3.hits_remaining with
    | CollideRes.alive l h c =>
        (TickOutcome.cont { s3 with lines := l, hits_remaining := h }, ic.2 ++ c)
    | CollideRes.dead c => (TickOutcome.done false 0, ic.2 ++ c)

/-- The state after one tick when the level continues; when the tick ends the
level the state is returned unchanged (used only to chain concrete runs). -/
def nextState (sh sw : ℤ) (inp : TickInput) (s : LevelState) : LevelState :=
  match (play_level_tick sh sw inp s).1 with
  | TickOutcome.cont s' => s'
  | TickOutcome.done _ _ => s

/-- Iterating the loop over a list of tick inputs from a given outcome; once
the level has returned, further inputs are ignored. -/
def runLevel (sh sw : ℤ) : List TickInput → TickOutcome → TickOutcome
  | [], o => o
  | i :: is, o =>
      match o with
      | TickOutcome.cont s => runLevel sh sw is (play_level_tick sh sw i s).1
      | TickOutcome.done c h => runLevel sh sw is (TickOutcome.done c h)

/-! ### The tone buffer synthesized by `play_tone`

`play_tone` (game.py lines 19-27) builds
`t = np.linspace(0, d/1000, int(fs*d/1000), False)` with the fixed sampling
rate `fs = 44100`, then `audio = (np.sin(freq*2*pi*t) * 0.3 * 32767)`
cast to `int16`; the cast truncates toward zero, and no value overflows
16 bits since `0.3 * 32767 < 2^15`. -/

/-- The fixed sampling rate `fs = 44100` of `play_tone`. -/
def sampleRate : ℕ := 44100

/-- The sample count `int(fs * duration_ms / 1000)` of `play_tone`:
Python `int` truncation of an exact rational. -/
def play_tone_len (duration_ms : ℚ) : ℕ :=
  (ratTrunc ((sampleRate : ℚ) * duration_ms / 1000)).toNat

/-- Truncation toward zero of a real number, the semantics of
`numpy.astype(np.int16)` on values within the 16-bit range. -/
noncomputable def realTrunc (x : ℝ) : ℤ := if 0 ≤ x then ⌊x⌋ else ⌈x⌉

/-- Sample `i` of the `play_tone` buffer: with `n = int(fs*d/1000)` samples,
`np.linspace(0, d/1000, n, False)` places sample `i` at time
`t = (d/1000) * i / n`, and the sample value is
`int16(sin(freq * 2π * t) * 0.3 * 32767)`. -/
noncomputable def play_tone_sample (freq duration_ms : ℚ) (i : ℕ) : ℤ :=
  realTrunc (Real.sin ((freq : ℝ) * (2 * Real.pi) *
      ((duration_ms : ℝ) / 1000 * i / (play_tone_len duration_ms : ℝ))) * (3/10) * 32767)

/-- The whole buffer generated by one `play_tone` call. -/
noncomputable def play_tone_buffer (freq duration_ms : ℚ) : List ℤ :=
  (List.range (play_tone_len duration_ms)).map (play_tone_sample freq duration_ms)

/-! ### The background track

Modelled from the spec: `synthesize_background_track` is described in the
specification (§4.4) but is absent from `src/game.py` (it belongs to a
variant of the program that is not in the repository snapshot), so it is
modelled here from the specification's words: repeatedly pick a uniformly
random note from a fixed 7-note diatonic set and a duration from a fixed
small set of millisecond values, scale every chosen frequency by
`1 + 0.1*(level-1)`, synthesize and concatenate square tones until the
accumulated sample count reaches `target_seconds * sample_rate`, then
truncate exactly to that count.  The random note and duration choices enter
as oracle streams `notes` and `durs` constrained to the fixed sets. -/

/-- Modelled from the spec: the fixed 7-note diatonic set (C major, in Hz). -/
def bgNotes : List ℚ := [262, 294, 330, 349, 392, 440, 494]

/-- Modelled from the spec: the fixed small set of note durations (ms). -/
def bgDurs : List ℚ := [100, 200, 300]

/-- Sample count of a square tone of `d` ms at sample rate `sr`. -/
def squareToneLen (sr : ℕ) (d : ℚ) : ℕ := (ratTrunc ((sr : ℚ) * d / 1000)).toNat

/-- The sign of `sin (2π x)` scaled to 30% of full 16-bit amplitude and
quantized: `9830 = int(0.3 * 32767)` when the fractional part of `x` is in
`(0, 1/2)`, `-9830` when it is in `(1/2, 1)`, and `0` at the zeros. -/
def squareSample (x : ℚ) : ℤ :=
  let fr := x - ⌊x⌋
  if fr = 0 then 0 else if fr < 1/2 then 9830 else if fr = 1/2 then 0 else -9830

/-- Modelled from the spec: one square tone of frequency `f` Hz and duration
`d` ms at sample rate `sr`. -/
def squareTone (sr : ℕ) (f d : ℚ) : List ℤ :=
  (List.range (squareToneLen sr d)).map fun i : ℕ =>
    squareSample (f * (d / 1000) * (i : ℚ) / ((squareToneLen sr d : ℕ) : ℚ))

/-- Modelled from the spec: the concatenation loop of
`synthesize_background_track`, with explicit fuel (one unit per appended
tone; `need + 1` units always suffice since every tone is nonempty). -/
def bgLoop (sr : ℕ) (scale : ℚ) (notes durs : ℕ → ℚ) (need : ℕ) :
    ℕ → ℕ → List ℤ → List ℤ
  | 0, _, acc => acc
  | fuel + 1, k, acc =>
      if need ≤ acc.length then acc
      else bgLoop sr scale notes durs need fuel (k + 1)
        (acc ++ squareTone sr (scale * notes k) (durs k))

/-- Modelled from the spec: `synthesize_background_track(level, T, sr)` with
oracle streams for the random note and duration choices; the chosen
frequency is scaled by `1 + 0.1*(level-1)` and the concatenation is
truncated to exactly `T * sr` samples. -/
def synthesize_background_track (level : ℤ) (target_seconds sr : ℕ)
    (notes durs : ℕ → ℚ) : List ℤ :=
  (bgLoop sr (1 + (1/10) * ((level : ℚ) - 1)) notes durs (target_seconds * sr)
    (target_seconds * sr + 1) 0 []).take (target_seconds * sr)

/-! ### Helper lemmas -/

lemma ratTrunc_of_nonneg {q : ℚ} (h : 0 ≤ q) : ratTrunc q = ⌊q⌋ := if_pos h

lemma ratTrunc_eq {q : ℚ} (z : ℤ) (h0 : 0 ≤ q) (h1 : (z : ℚ) ≤ q) (h2 : q < z + 1) :
    ratTrunc q = z := by
  rw [ratTrunc_of_nonneg h0]
  exact Int.floor_eq_iff.mpr ⟨h1, h2⟩

lemma realTrunc_abs_le (x : ℝ) : |((realTrunc x : ℤ) : ℝ)| ≤ |x| := by
  unfold realTrunc
  split_ifs with h
  · rw [abs_of_nonneg h, abs_of_nonneg (by exact_mod_cast Int.floor_nonneg.mpr h)]
    exact_mod_cast Int.floor_le x
  · push_neg at h
    have hc : (⌈x⌉ : ℤ) ≤ 0 := Int.ceil_le.mpr (by exact_mod_cast h.le)
    rw [abs_of_nonpos h.le, abs_of_nonpos (by exact_mod_cast hc)]
    have := Int.le_ceil x
    linarith

/-! ### C8: parameters of the precomputed cues -/

/-- C8, counterexample: the jump and hit cues last 100 ms (not 50 ms), the
win fanfare tones last 200 ms each (not 100 ms), and the second and third
fail-motif frequencies are 301 and 202 Hz (not 300 and 200 Hz). -/
theorem cue_parameters_cex :
    jumpCue.duration_ms = 100 ∧ hitCue.duration_ms = 100 ∧
    play_success_sound.map Cue.duration_ms = [200, 200, 200] ∧
    play_fail_sound.map Cue.freq ≠ [450, 300, 200] := by
  have h3 : ratTrunc (450 * (1 - 33/100)) = 301 :=
    ratTrunc_eq 301 (by norm_num) (by norm_num) (by norm_num)
  refine ⟨rfl, rfl, by simp [play_success_sound], ?_⟩
  simp [play_fail_sound, h3]

/-- C8 (amended): the jump cue is 700 Hz for 100 ms and the hit cue 300 Hz
for 100 ms, both non-blocking; the win fanfare is three blocking tones of
500, 750 and 1125 Hz at 200 ms each; the fail motif is three blocking tones
of 450, 301 and 202 Hz with durations 660, 660 and 1000 ms. -/
theorem cue_parameters_spec :
    jumpCue = ⟨700, 100, false⟩ ∧ hitCue = ⟨300, 100, false⟩ ∧
    play_success_sound = [⟨500, 200, true⟩, ⟨750, 200, true⟩, ⟨1125, 200, true⟩] ∧
    play_fail_sound = [⟨450, 660, true⟩, ⟨301, 660, true⟩, ⟨202, 1000, true⟩] := by
  have h1 : ratTrunc (500 * (3/2)) = 750 :=
    ratTrunc_eq 750 (by norm_num) (by norm_num) (by norm_num)
  have h2 : ratTrunc (500 * (3/2) * (3/2)) = 1125 :=
    ratTrunc_eq 1125 (by norm_num) (by norm_num) (by norm_num)
  have h3 : ratTrunc (450 * (1 - 33/100)) = 301 :=
    ratTrunc_eq 301 (by norm_num) (by norm_num) (by norm_num)
  have h4 : ratTrunc (450 * (1 - 33/100) * (1 - 33/100)) = 202 :=
    ratTrunc_eq 202 (by norm_num) (by norm_num) (by norm_num)
  exact ⟨rfl, rfl, by simp [play_success_sound, h1, h2], by simp [play_fail_sound, h3, h4]⟩

/-! ### C1: the jump command -/

/-- C1, counterexample: pressing space on the ground emits the jump cue, but
pressing space again on the very next tick, while airborne after that first
jump, emits no cue and is a no-op — there is no second jump, contradicting
the claimed double-jump contract. -/
theorem second_jump_emits_no_cue :
    (play_level_tick 15 40 ⟨1, Key.space, 1, 1⟩ (play_level_init 15 40 1 0 0)).2 = [jumpCue] ∧
    (play_level_tick 15 40 ⟨2, Key.space, 1, 1⟩
      (nextState 15 40 ⟨1, Key.space, 1, 1⟩ (play_level_init 15 40 1 0 0))).2 = [] := by
  constructor <;>
  norm_num [nextState, play_level_tick, play_level_init, speedup_phase, input_phase,
    gravity_phase, spawn_phase, move_obstacles, prune_obstacles, collide_phase,
    INITIAL_SPAWN_RATE, MAX_SPAWN_RATE, SPAWN_INCREASE, SPEED_UP_INTERVAL, GRAVITY,
    JUMP_VELOCITY, min_def]

/-- C1 (amended): the jump command fires only when `on_ground`: it then sets
`vertical_velocity` to the jump velocity, clears `on_ground` and emits one
non-blocking jump cue; when airborne it is a no-op with no velocity change
and no cue.  There is no double jump and no `jumps_used` counter. -/
theorem jump_requires_on_ground (sw : ℤ) (s : LevelState) :
    (s.on_ground = true →
      input_phase sw Key.space s =
        ({ s with vy := JUMP_VELOCITY, on_ground := false }, [jumpCue])) ∧
    (s.on_ground = false → input_phase sw Key.space s = (s, [])) := by
  cases h : s.on_ground <;> simp [input_phase, h]

/-- C1, witness: from the initial (grounded) state, space triggers the jump. -/
theorem jump_requires_on_ground_witness :
    input_phase 40 Key.space (play_level_init 15 40 1 0 0) =
      ({ play_level_init 15 40 1 0 0 with vy := JUMP_VELOCITY, on_ground := false },
        [jumpCue]) :=
  (jump_requires_on_ground 40 (play_level_init 15 40 1 0 0)).1 rfl

/-! ### C2: the speed-up rule and level completion -/

lemma speedup_phase_hits (now : ℚ) (s : LevelState) :
    (speedup_phase now s).1.hits_remaining = s.hits_remaining := by
  unfold speedup_phase
  split_ifs <;> rfl

/-- C2, counterexample: with `last_speedup_time = 0`, a tick at `now = 10`
satisfies `now - last_speedup_time >= SPEED_UP_INTERVAL` but triggers no
speed-up: the comparison in the code is strict. -/
theorem speedup_not_fired_at_exact_interval :
    (nextState 15 40 ⟨10, Key.other, 1, 1⟩ (play_level_init 15 40 1 0 0)).speed = 1 ∧
    (nextState 15 40 ⟨10, Key.other, 1, 1⟩ (play_level_init 15 40 1 0 0)).speed_ups = 0 ∧
    SPEED_UP_INTERVAL ≤ (10 : ℚ) - (play_level_init 15 40 1 0 0).last_speed_time := by
  norm_num [nextState, play_level_tick, play_level_init, speedup_phase, input_phase,
    gravity_phase, spawn_phase, move_obstacles, prune_obstacles, collide_phase,
    INITIAL_SPAWN_RATE, MAX_SPAWN_RATE, SPAWN_INCREASE, SPEED_UP_INTERVAL, GRAVITY,
    JUMP_VELOCITY, min_def]

/-- C2 (amended): on every tick, if `now - last_speedup_time` strictly
exceeds `SPEED_UP_INTERVAL` then speed is incremented by 1, the spawn rate
is increased by `SPAWN_INCREASE` capped at `MAX_SPAWN_RATE`, the speed-up
count is incremented and `last_speedup_time` is reset to `now`; otherwise
nothing changes.  The level completes (the tick returns `completed = true`
with the current lives) exactly when a speed-up fires as the third one. -/
theorem speedup_step_spec (now : ℚ) (s : LevelState) (h : s.speed_ups ≤ 2) :
    (now - s.last_speed_time ≤ SPEED_UP_INTERVAL → speedup_phase now s = (s, false)) ∧
    (SPEED_UP_INTERVAL < now - s.last_speed_time →
      speedup_phase now s =
        ({ s with
            speed := s.speed + 1
            spawn_rate := min MAX_SPAWN_RATE (s.spawn_rate + SPAWN_INCREASE)
            speed_ups := s.speed_ups + 1
            last_speed_time := now },
          decide (3 ≤ s.speed_ups + 1))) ∧
    ((speedup_phase now s).2 = true ↔
      (SPEED_UP_INTERVAL < now - s.last_speed_time ∧ s.speed_ups = 2)) ∧
    (∀ (sh sw : ℤ) (k : Key) (q : ℚ) (r : ℤ), (speedup_phase now s).2 = true →
      (play_level_tick sh sw ⟨now, k, q, r⟩ s).1 = TickOutcome.done true s.hits_remaining) := by
  refine ⟨?_, ?_, ?_, ?_⟩
  · intro hle
    rw [speedup_phase, if_neg (by exact not_lt.mpr hle)]
  · intro hlt
    rw [speedup_phase, if_pos hlt]
  · unfold speedup_phase
    split_ifs with hlt
    · simp only [decide_eq_true_eq]
      constructor
      · intro h3
        exact ⟨hlt, by omega⟩
      · intro hc
        obtain ⟨-, h2'⟩ := hc
        omega
    · simp only [Bool.false_eq_true, false_iff]
      intro hc
      exact hlt hc.1
  · intro sh sw k q r h2
    have hh := speedup_phase_hits now s
    unfold play_level_tick
    simp only [h2, if_true, hh]

/-- C2, witness: a tick strictly inside the interval changes nothing. -/
theorem speedup_step_spec_witness :
    speedup_phase 5 (play_level_init 15 40 1 0 0) = (play_level_init 15 40 1 0 0, false) :=
  (speedup_step_spec 5 (play_level_init 15 40 1 0 0)
    (by simp [play_level_init])).1 (by norm_num [play_level_init, SPEED_UP_INTERVAL])

/-! ### C5: the gravity step and the vertical band -/

/-- C5, counterexample: on a 40x15 playfield, four ticks after a jump from
the ground the player's `height_y` is `-1`, strictly above the playfield's
top row: the code has no clamp at the top of the playable band, so the
claimed invariant `height_y ∈ [top_bound, ground_y]` fails. -/
theorem player_escapes_playfield_upward :
    (nextState 15 40 ⟨4, Key.other, 1, 1⟩ (nextState 15 40 ⟨3, Key.other, 1, 1⟩
      (nextState 15 40 ⟨2, Key.other, 1, 1⟩ (nextState 15 40 ⟨1, Key.space, 1, 1⟩
        (play_level_init 15 40 1 0 0))))).char_y = -1 ∧
    (nextState 15 40 ⟨4, Key.other, 1, 1⟩ (nextState 15 40 ⟨3, Key.other, 1, 1⟩
      (nextState 15 40 ⟨2, Key.other, 1, 1⟩ (nextState 15 40 ⟨1, Key.space, 1, 1⟩
        (play_level_init 15 40 1 0 0))))).char_y < 0 := by
  norm_num [nextState, play_level_tick, play_level_init, speedup_phase, input_phase,
    gravity_phase, spawn_phase, move_obstacles, prune_obstacles, collide_phase,
    INITIAL_SPAWN_RATE, MAX_SPAWN_RATE, SPAWN_INCREASE, SPEED_UP_INTERVAL, GRAVITY,
    JUMP_VELOCITY, min_def]

/-- C5 (amended): the gravity step clamps the player only at the ground: if
`height_y ≤ ground_y` before the step then still after it, and an airborne
player reaching or passing the ground row snaps to it with zero velocity and
`on_ground` set.  There is no clamp at the top of the playfield, and on
short playfields `height_y` can leave the playable band upward. -/
theorem gravity_ground_clamp (sh : ℤ) (s : LevelState) (h : s.char_y ≤ sh - 2) :
    (gravity_phase sh s).char_y ≤ sh - 2 ∧
    (s.on_ground = false → sh - 2 ≤ s.char_y + s.vy →
      gravity_phase sh s = { s with char_y := sh - 2, vy := 0, on_ground := true }) := by
  unfold gravity_phase
  cases hog : s.on_ground
  · simp only [Bool.false_eq_true, if_false]
    constructor
    · split_ifs with hy
      · simp
      · simpa using (not_le.mp hy).le
    · intro _ hy
      rw [if_pos hy]
  · simp [hog, h]

/-- C5, witness: from the grounded initial state the bound holds. -/
theorem gravity_ground_clamp_witness :
    (gravity_phase 15 (play_level_init 15 40 1 0 0)).char_y ≤ 15 - 2 :=
  (gravity_ground_clamp 15 (play_level_init 15 40 1 0 0)
    (by norm_num [play_level_init])).1

/-! ### C10: level-dependent difficulty seeding -/

/-- C10: level `n` starts with `speed = n` and
`spawn_rate = min(MAX_SPAWN_RATE, INITIAL_SPAWN_RATE + (n-1)*0.1)`, and
within the game's levels (`1..LEVEL_COUNT`) each later level begins with
strictly larger speed and spawn rate than the previous one began. -/
theorem level_seeding_spec (sh sw carry : ℤ) (t : ℚ) (n : ℤ) :
    (play_level_init sh sw n carry t).speed = n ∧
    (play_level_init sh sw n carry t).spawn_rate =
      min MAX_SPAWN_RATE (INITIAL_SPAWN_RATE + ((n : ℚ) - 1) * (1/10)) ∧
    (1 ≤ n → n + 1 ≤ LEVEL_COUNT →
      (play_level_init sh sw n carry t).speed < (play_level_init sh sw (n+1) carry t).speed ∧
      (play_level_init sh sw n carry t).spawn_rate <
        (play_level_init sh sw (n+1) carry t).spawn_rate) := by
  refine ⟨rfl, rfl, ?_⟩
  intro h1 h3
  have hn2 : n ≤ 2 := by
    have : LEVEL_COUNT = 3 := rfl
    omega
  constructor
  · show n < n + 1
    omega
  · have hn2' : (n : ℚ) ≤ 2 := by exact_mod_cast hn2
    show min MAX_SPAWN_RATE (INITIAL_SPAWN_RATE + ((n : ℚ) - 1) * (1/10)) <
      min MAX_SPAWN_RATE (INITIAL_SPAWN_RATE + (((n + 1 : ℤ) : ℚ) - 1) * (1/10))
    unfold MAX_SPAWN_RATE INITIAL_SPAWN_RATE
    push_cast
    rw [min_eq_right (by linarith), min_eq_right (by linarith)]
    linarith

/-- C10, witness: level 2 starts strictly harder than level 1. -/
theorem level_seeding_witness :
    (play_level_init 15 40 1 0 0).speed < (play_level_init 15 40 2 0 0).speed ∧
    (play_level_init 15 40 1 0 0).spawn_rate < (play_level_init 15 40 2 0 0).spawn_rate := by
  have h := (level_seeding_spec 15 40 0 0 1).2.2 (by norm_num) (by norm_num [LEVEL_COUNT])
  simpa using h

/-! ### C4: the tone buffer synthesized by `play_tone` -/

/-- C4, counterexample: the buffer length is `int(fs*d/1000)` (truncation),
not `round(d/1000*sr)`: at `d = 6` ms the code yields 264 samples while the
claim demands 265.  Moreover the waveform is a sine, not a square wave: at
`f = 3675` Hz, `d = 1000` ms, sample 1 sits at angle `pi/6` and has value
`int(sin(pi/6) * 0.3 * 32767) = 4915`, strictly between the two extreme
values `0` and `+-9830` of a square wave. -/
theorem play_tone_len_and_wave_cex :
    play_tone_len 6 = 264 ∧ round ((6 : ℚ) / 1000 * 44100) = 265 ∧
    play_tone_sample 3675 1000 1 = 4915 := by
  have hl : play_tone_len 1000 = 44100 := by
    unfold play_tone_len sampleRate
    rw [ratTrunc_eq 44100 (by norm_num) (by norm_num) (by norm_num)]
    rfl
  refine ⟨?_, ?_, ?_⟩
  · unfold play_tone_len sampleRate
    rw [ratTrunc_eq 264 (by norm_num) (by norm_num) (by norm_num)]
    rfl
  · rw [round_eq]
    exact Int.floor_eq_iff.mpr (by norm_num)
  · unfold play_tone_sample
    rw [hl]
    have harg : ((3675 : ℚ) : ℝ) * (2 * Real.pi) *
        (((1000 : ℚ) : ℝ) / 1000 * ((1 : ℕ) : ℝ) / ((44100 : ℕ) : ℝ)) = Real.pi / 6 := by
      push_cast
      ring
    rw [harg, Real.sin_pi_div_six]
    unfold realTrunc
    rw [if_pos (by norm_num)]
    exact Int.floor_eq_iff.mpr (by norm_num)

/-- C4 (amended): `play_tone(f, d)` synthesizes exactly
`int(44100 * d / 1000)` samples (the sampling rate is fixed, not a
parameter) of a sine wave at `f` Hz scaled to 30% of full 16-bit amplitude,
so every sample lies in `[-32767*0.3, 32767*0.3]`; the samples sweep the
sine's range rather than taking only two extreme values. -/
theorem play_tone_spec (freq duration_ms : ℚ) :
    (play_tone_buffer freq duration_ms).length = play_tone_len duration_ms ∧
    ∀ i : ℕ, |((play_tone_sample freq duration_ms i : ℤ) : ℝ)| ≤ 32767 * (3/10) := by
  constructor
  · simp [play_tone_buffer]
  · intro i
    unfold play_tone_sample
    refine le_trans (realTrunc_abs_le _) ?_
    rw [abs_mul, abs_mul]
    have h1 := Real.abs_sin_le_one ((freq : ℝ) * (2 * Real.pi) *
      ((duration_ms : ℝ) / 1000 * i / (play_tone_len duration_ms : ℝ)))
    have h2 : |(3/10 : ℝ)| = 3/10 := by norm_num
    have h3 : |(32767 : ℝ)| = 32767 := by norm_num
    rw [h2, h3]
    nlinarith [abs_nonneg (Real.sin ((freq : ℝ) * (2 * Real.pi) *
      ((duration_ms : ℝ) / 1000 * i / (play_tone_len duration_ms : ℝ))))]

/-! ### C3: collision resolution -/

/-- Iterated `removeFirst`: delete the first occurrence of `a`, `n` times. -/
def removeN (a : Obstacle) : List Obstacle → ℕ → List Obstacle
  | ls, 0 => ls
  | ls, n + 1 => removeN a (removeFirst ls a) n

lemma obstacle_hit_iff (px py : ℤ) (ln : Obstacle) :
    (ln.col = px ∧ ln.row = py) ↔ ln = (⟨py, px⟩ : Obstacle) := by
  cases ln
  simp only [Obstacle.mk.injEq]
  tauto

lemma removeN_cons_ne (a x : Obstacle) (hx : x ≠ a) :
    ∀ (n : ℕ) (ls : List Obstacle), removeN a (x :: ls) n = x :: removeN a ls n := by
  intro n
  induction n with
  | zero => intro ls; rfl
  | succ n ih =>
      intro ls
      show removeN a (removeFirst (x :: ls) a) n = x :: removeN a (removeFirst ls a) n
      rw [removeFirst, if_neg hx]
      exact ih (removeFirst ls a)

lemma removeN_count_eq_filter (a : Obstacle) (ls : List Obstacle) :
    removeN a ls (ls.count a) = ls.filter fun x => decide (x ≠ a) := by
  induction ls with
  | nil => rfl
  | cons x xs ih =>
      by_cases hx : x = a
      · subst hx
        rw [List.count_cons_self]
        show removeN x (removeFirst (x :: xs) x) (xs.count x) = _
        rw [removeFirst, if_pos rfl, ih]
        simp [List.filter]
      · rw [List.count_cons_of_ne (fun h => hx h.symm), removeN_cons_ne a x hx, ih]
        simp [List.filter, hx]

lemma collide_phase_characterization (px py : ℤ) (snap : List Obstacle) :
    ∀ (lines : List Obstacle) (hits : ℤ), 0 ≤ hits →
      (((snap.count (⟨py, px⟩ : Obstacle) : ℤ) ≤ hits →
        collide_phase px py snap lines hits =
          CollideRes.alive (removeN ⟨py, px⟩ lines (snap.count ⟨py, px⟩))
            (hits - snap.count (⟨py, px⟩ : Obstacle))
            (List.replicate (snap.count ⟨py, px⟩) hitCue)) ∧
      (hits < (snap.count (⟨py, px⟩ : Obstacle) : ℤ) →
        collide_phase px py snap lines hits =
          CollideRes.dead (List.replicate (hits.toNat + 1) hitCue ++ play_fail_sound))) := by
  induction snap with
  | nil =>
      intro lines hits h0
      constructor
      · intro _
        simp [collide_phase, removeN]
      · intro hlt
        simp only [List.count_nil, Nat.cast_zero] at hlt
        omega
  | cons ln rest ih =>
      intro lines hits h0
      by_cases hcol : ln = (⟨py, px⟩ : Obstacle)
      · have hcond : ln.col = px ∧ ln.row = py := (obstacle_hit_iff px py ln).mpr hcol
        have hcount : (ln :: rest).count (⟨py, px⟩ : Obstacle) =
            rest.count (⟨py, px⟩ : Obstacle) + 1 := by
          rw [hcol]
          exact List.count_cons_self _ _
        have hrem : removeFirst lines ln = removeFirst lines (⟨py, px⟩ : Obstacle) := by
          rw [hcol]
        by_cases hpos : 0 < hits
        · have ih' := ih (removeFirst lines (⟨py, px⟩ : Obstacle)) (hits - 1) (by omega)
          constructor
          · intro hle
            rw [hcount] at hle ⊢
            have hle' : (rest.count (⟨py, px⟩ : Obstacle) : ℤ) ≤ hits - 1 := by
              push_cast at hle ⊢
              omega
            have heq := ih'.1 hle'
            simp only [collide_phase]
            rw [if_pos hcond, if_pos hpos, hrem, heq]
            show CollideRes.alive _ _ (hitCue :: _) = _
            rw [← List.replicate_succ]
            have hz : hits - 1 - (rest.count (⟨py, px⟩ : Obstacle) : ℤ) =
                hits - ((rest.count (⟨py, px⟩ : Obstacle) + 1 : ℕ) : ℤ) := by
              push_cast
              ring
            rw [hz]
            rfl
          · intro hlt
            rw [hcount] at hlt
            have hlt' : hits - 1 < (rest.count (⟨py, px⟩ : Obstacle) : ℤ) := by
              push_cast at hlt ⊢
              omega
            have heq := ih'.2 hlt'
            simp only [collide_phase]
            rw [if_pos hcond, if_pos hpos, hrem, heq]
            show CollideRes.dead (hitCue :: _) = _
            rw [← List.cons_append, ← List.replicate_succ]
            have hzz : (hits - 1).toNat + 1 + 1 = hits.toNat + 1 := by omega
            rw [hzz]
        · have hz : hits = 0 := by omega
          subst hz
          constructor
          · intro hle
            rw [hcount] at hle
            exfalso
            push_cast at hle
            omega
          · intro _
            simp only [collide_phase]
            rw [if_pos hcond, if_neg hpos]
            simp
      · have hcount : (ln :: rest).count (⟨py, px⟩ : Obstacle) =
            rest.count (⟨py, px⟩ : Obstacle) :=
          List.count_cons_of_ne (fun h => hcol h.symm) rest
        have hcond : ¬(ln.col = px ∧ ln.row = py) := fun h =>
          hcol ((obstacle_hit_iff px py ln).mp h)
        constructor
        · intro hle
          rw [hcount] at hle ⊢
          have heq := (ih lines hits h0).1 hle
          simp only [collide_phase]
          rw [if_neg hcond, heq]
        · intro hlt
          rw [hcount] at hlt
          have heq := (ih lines hits h0).2 hlt
          simp only [collide_phase]
          rw [if_neg hcond, heq]


/-- C3: for the collision pass of any tick, run over the snapshot of the
obstacle stream with the player at `(height_y, lane_x) = (py, px)`: every
obstacle at the player's position fires one non-blocking hit cue; while the
hit budget covers them, exactly the colliding obstacles are removed from
the stream, `lives_remaining` decreases by exactly one per collision and
the tick continues; a collision found with `lives_remaining = 0` ends the
level at once, and the loop then returns `(completed = false, 0)`. -/
theorem collision_resolution_spec (px py : ℤ) (hits : ℤ) (snap : List Obstacle)
    (h0 : 0 ≤ hits) :
    ((snap.count (⟨py, px⟩ : Obstacle) : ℤ) ≤ hits →
      collide_phase px py snap snap hits =
        CollideRes.alive (snap.filter fun ln => decide (ln ≠ (⟨py, px⟩ : Obstacle)))
          (hits - snap.count (⟨py, px⟩ : Obstacle))
          (List.replicate (snap.count (⟨py, px⟩ : Obstacle)) hitCue)) ∧
    (hits < (snap.count (⟨py, px⟩ : Obstacle) : ℤ) →
      collide_phase px py snap snap hits =
        CollideRes.dead (List.replicate (hits.toNat + 1) hitCue ++ play_fail_sound)) ∧
    (∀ (sh sw : ℤ) (inp : TickInput) (s : LevelState) (c : List Cue),
      collide_phase s.char_x s.char_y
          (prune_obstacles (move_obstacles s.speed
            (spawn_phase sw inp.draw s.spawn_rate inp.row s.lines)))
          (prune_obstacles (move_obstacles s.speed
            (spawn_phase sw inp.draw s.spawn_rate inp.row s.lines)))
          s.hits_remaining = CollideRes.dead c →
      speedup_phase inp.now s = (s, false) → s.on_ground = true →
      inp.key = Key.other →
      play_level_tick sh sw inp s = (TickOutcome.done false 0, c)) := by
  have h := collide_phase_characterization px py snap snap hits h0
  refine ⟨?_, h.2, ?_⟩
  · intro hle
    have halive := h.1 hle
    rwa [removeN_count_eq_filter] at halive
  · intro sh sw inp s c hdead hno hog hk
    unfold play_level_tick
    rw [hno, hk]
    simp only [input_phase, gravity_phase, hog, if_true]
    rw [hdead]
    simp

/-- C3, witness: one obstacle at the player's position with one life left is
removed, the life is consumed and one hit cue fires. -/
theorem collision_resolution_witness :
    collide_phase 5 7 [⟨7, 5⟩] [⟨7, 5⟩] 1 = CollideRes.alive [] 0 [hitCue] := by
  have h := (collision_resolution_spec 5 7 1 [⟨7, 5⟩] (by norm_num)).1 (by simp)
  simpa using h

/-! ### C6: the obstacle stream tick -/

/-- C6: each tick makes one uniform draw; when it is below `spawn_rate` one
obstacle is appended at `col = width-2` with row drawn uniformly from
`randint(1, height-3)`, i.e. the half-open range from 1 to `height-2`;
then every column is decremented by the current speed; then exactly the
obstacles with `col <= 0` are dropped. -/
theorem obstacle_stream_tick_spec (sh sw : ℤ) (draw rate : ℚ) (row speed : ℤ)
    (ls : List Obstacle) (hrow : row ∈ spawnRowSupport sh) :
    spawn_phase sw draw rate row ls =
      (if draw < rate then ls ++ [⟨row, sw - 2⟩] else ls) ∧
    (∀ ln : Obstacle,
      ln ∈ prune_obstacles (move_obstacles speed (spawn_phase sw draw rate row ls)) ↔
        ((∃ l0 ∈ spawn_phase sw draw rate row ls,
            ln.row = l0.row ∧ ln.col = l0.col - speed) ∧ 0 < ln.col)) ∧
    spawnRowSupport sh = Finset.Ico 1 (sh - 2) ∧
    1 ≤ row ∧ row ≤ sh - 3 := by
  refine ⟨rfl, ?_, ?_, ?_⟩
  · intro ln
    simp only [prune_obstacles, move_obstacles, List.mem_filter, List.mem_map,
      decide_eq_true_eq]
    constructor
    · rintro ⟨⟨l0, hl0, rfl⟩, hc⟩
      exact ⟨⟨l0, hl0, rfl, rfl⟩, hc⟩
    · rintro ⟨⟨l0, hl0, hr, hc⟩, hpos⟩
      refine ⟨⟨l0, hl0, ?_⟩, hpos⟩
      cases ln
      cases l0
      simp_all
  · unfold spawnRowSupport
    ext x
    simp only [Finset.mem_Icc, Finset.mem_Ico]
    omega
  · simpa [spawnRowSupport, Finset.mem_Icc] using hrow

/-- C6, witness: on a 40x15 playfield a draw of 0 against rate 1 spawns one
obstacle at column 38, and the drawn row 5 is inside the support. -/
theorem obstacle_stream_tick_witness :
    spawn_phase 40 0 1 5 [] = [(⟨5, 38⟩ : Obstacle)] ∧ (1 : ℤ) ≤ 5 ∧ (5 : ℤ) ≤ 15 - 3 := by
  have h := obstacle_stream_tick_spec 15 40 0 1 5 1 [] (by simp [spawnRowSupport])
  refine ⟨?_, h.2.2.2⟩
  rw [h.1]
  norm_num [Obstacle.mk.injEq]

/-! ### C7: monotonicity of speed and spawn rate within a level -/

lemma speedup_phase_mono (now : ℚ) (s : LevelState)
    (hr : s.spawn_rate ≤ MAX_SPAWN_RATE) :
    s.speed ≤ (speedup_phase now s).1.speed ∧
    s.spawn_rate ≤ (speedup_phase now s).1.spawn_rate ∧
    (speedup_phase now s).1.spawn_rate ≤ MAX_SPAWN_RATE := by
  unfold speedup_phase
  split_ifs
  · refine ⟨?_, ?_, ?_⟩
    · show s.speed ≤ s.speed + 1
      omega
    · show s.spawn_rate ≤ min MAX_SPAWN_RATE (s.spawn_rate + SPAWN_INCREASE)
      refine le_min hr ?_
      unfold SPAWN_INCREASE
      linarith
    · show min MAX_SPAWN_RATE (s.spawn_rate + SPAWN_INCREASE) ≤ MAX_SPAWN_RATE
      exact min_le_left _ _
  · exact ⟨le_refl _, le_refl _, hr⟩

lemma input_phase_speed (sw : ℤ) (k : Key) (s : LevelState) :
    (input_phase sw k s).1.speed = s.speed := by
  cases k <;> simp [input_phase] <;> split_ifs <;> simp

lemma input_phase_rate (sw : ℤ) (k : Key) (s : LevelState) :
    (input_phase sw k s).1.spawn_rate = s.spawn_rate := by
  cases k <;> simp [input_phase] <;> split_ifs <;> simp

lemma gravity_phase_speed (sh : ℤ) (s : LevelState) :
    (gravity_phase sh s).speed = s.speed := by
  unfold gravity_phase
  split_ifs <;> simp

lemma gravity_phase_rate (sh : ℤ) (s : LevelState) :
    (gravity_phase sh s).spawn_rate = s.spawn_rate := by
  unfold gravity_phase
  split_ifs <;> simp

lemma play_level_tick_cont_fields (sh sw : ℤ) (inp : TickInput) (s s' : LevelState)
    (h : (play_level_tick sh sw inp s).1 = TickOutcome.cont s') :
    s'.speed = (speedup_phase inp.now s).1.speed ∧
    s'.spawn_rate = (speedup_phase inp.now s).1.spawn_rate := by
  unfold play_level_tick at h
  simp only [] at h
  by_cases h2 : (speedup_phase inp.now s).2 = true
  · rw [if_pos h2] at h
    simp at h
  · rw [if_neg h2] at h
    cases hk : inp.key <;> rw [hk] at h
    · simp at h
    all_goals
      simp only [] at h
      split at h
      · simp only [TickOutcome.cont.injEq] at h
        subst h
        exact ⟨by simp [gravity_phase_speed, input_phase_speed],
          by simp [gravity_phase_rate, input_phase_rate]⟩
      · simp at h

lemma play_level_tick_mono (sh sw : ℤ) (inp : TickInput) (s s' : LevelState)
    (hr : s.spawn_rate ≤ MAX_SPAWN_RATE)
    (h : (play_level_tick sh sw inp s).1 = TickOutcome.cont s') :
    s.speed ≤ s'.speed ∧ s.spawn_rate ≤ s'.spawn_rate ∧
    s'.spawn_rate ≤ MAX_SPAWN_RATE := by
  have hf := play_level_tick_cont_fields sh sw inp s s' h
  have hsu := speedup_phase_mono inp.now s hr
  exact ⟨hf.1 ▸ hsu.1, hf.2 ▸ hsu.2.1, hf.2 ▸ hsu.2.2⟩

lemma runLevel_stays_done (sh sw : ℤ) (ins : List TickInput) (cpl : Bool) (hh : ℤ) :
    runLevel sh sw ins (TickOutcome.done cpl hh) = TickOutcome.done cpl hh := by
  induction ins with
  | nil => rfl
  | cons i is ih => simpa [runLevel] using ih

lemma runLevel_mono (sh sw : ℤ) (ins : List TickInput) :
    ∀ (s s' : LevelState), s.spawn_rate ≤ MAX_SPAWN_RATE →
      runLevel sh sw ins (TickOutcome.cont s) = TickOutcome.cont s' →
      s.speed ≤ s'.speed ∧ s.spawn_rate ≤ s'.spawn_rate ∧
      s'.spawn_rate ≤ MAX_SPAWN_RATE := by
  induction ins with
  | nil =>
      intro s s' hr h
      simp only [runLevel, TickOutcome.cont.injEq] at h
      subst h
      exact ⟨le_refl _, le_refl _, hr⟩
  | cons i is ih =>
      intro s s' hr h
      simp only [runLevel] at h
      cases hstep : (play_level_tick sh sw i s).1 with
      | cont s1 =>
          rw [hstep] at h
          have h1 := play_level_tick_mono sh sw i s s1 hr hstep
          have h2 := ih s1 s' h1.2.2 h
          exact ⟨le_trans h1.1 h2.1, le_trans h1.2.1 h2.2.1, h2.2.2⟩
      | done cpl hh =>
          rw [hstep, runLevel_stays_done] at h
          simp at h

lemma runLevel_append (sh sw : ℤ) (a b : List TickInput) (o : TickOutcome) :
    runLevel sh sw (a ++ b) o = runLevel sh sw b (runLevel sh sw a o) := by
  induction a generalizing o with
  | nil => rfl
  | cons i is ih =>
      cases o with
      | cont s =>
          simp only [List.cons_append, runLevel]
          exact ih _
      | done cpl hh =>
          simp only [List.cons_append, runLevel]
          exact ih _

/-- C7: within a single level, along every run of the loop from the level's
initial state, `speed` and `spawn_rate` are non-decreasing over time and
`spawn_rate` never exceeds `MAX_SPAWN_RATE`. -/
theorem difficulty_monotone (sh sw n c : ℤ) (t : ℚ) (ins1 ins2 : List TickInput)
    (sA sB : LevelState)
    (hA : runLevel sh sw ins1 (TickOutcome.cont (play_level_init sh sw n c t)) =
      TickOutcome.cont sA)
    (hB : runLevel sh sw (ins1 ++ ins2) (TickOutcome.cont (play_level_init sh sw n c t)) =
      TickOutcome.cont sB) :
    sA.speed ≤ sB.speed ∧ sA.spawn_rate ≤ sB.spawn_rate ∧
    sB.spawn_rate ≤ MAX_SPAWN_RATE := by
  have hr0 : (play_level_init sh sw n c t).spawn_rate ≤ MAX_SPAWN_RATE := min_le_left _ _
  have h1 := runLevel_mono sh sw ins1 _ _ hr0 hA
  rw [runLevel_append, hA] at hB
  exact runLevel_mono sh sw ins2 _ _ h1.2.2 hB

/-- C7, witness: the empty run from the initial state of level 1. -/
theorem difficulty_monotone_witness :
    (play_level_init 15 40 1 0 0).speed ≤ (play_level_init 15 40 1 0 0).speed ∧
    (play_level_init 15 40 1 0 0).spawn_rate ≤ (play_level_init 15 40 1 0 0).spawn_rate ∧
    (play_level_init 15 40 1 0 0).spawn_rate ≤ MAX_SPAWN_RATE :=
  difficulty_monotone 15 40 1 0 0 [] [] _ _ rfl rfl

/-! ### C9: the background track (modelled from the spec) -/

lemma squareTone_length (sr : ℕ) (f d : ℚ) :
    (squareTone sr f d).length = squareToneLen sr d := by
  unfold squareTone
  rw [List.length_map, List.length_range]

lemma one_le_ratTrunc_toNat {q : ℚ} (h : 1 ≤ q) : 1 ≤ (ratTrunc q).toNat := by
  have h0 : (0 : ℚ) ≤ q := le_trans (by norm_num) h
  rw [ratTrunc_of_nonneg h0]
  have h1 : (1 : ℤ) ≤ ⌊q⌋ := Int.le_floor.mpr (by exact_mod_cast h)
  omega

lemma squareToneLen_pos (sr : ℕ) (d : ℚ) (hsr : 10 ≤ sr) (hd : d ∈ bgDurs) :
    1 ≤ squareToneLen sr d := by
  have hsr' : (10 : ℚ) ≤ (sr : ℚ) := by exact_mod_cast hsr
  have hd' : d = 100 ∨ d = 200 ∨ d = 300 := by simpa [bgDurs] using hd
  unfold squareToneLen
  rcases hd' with h | h | h <;> subst h <;> exact one_le_ratTrunc_toNat (by linarith)

lemma bgLoop_length_ge (sr : ℕ) (scale : ℚ) (notes durs : ℕ → ℚ) (need : ℕ)
    (ht : ∀ k, 1 ≤ (squareTone sr (scale * notes k) (durs k)).length) :
    ∀ (fuel k : ℕ) (acc : List ℤ),
      min need (acc.length + fuel) ≤ (bgLoop sr scale notes durs need fuel k acc).length := by
  intro fuel
  induction fuel with
  | zero =>
      intro k acc
      simp only [bgLoop, Nat.add_zero]
      exact min_le_right _ _
  | succ fuel ih =>
      intro k acc
      rw [bgLoop]
      split_ifs with hle
      · exact le_trans (min_le_left _ _) hle
      · refine le_trans ?_ (ih (k + 1) (acc ++ squareTone sr (scale * notes k) (durs k)))
        apply min_le_min (le_refl _)
        have hk := ht k
        simp only [List.length_append]
        omega

/-- C9: `synthesize_background_track(level, T, sr)` — modelled from the spec,
the function is absent from `src/game.py` — concatenates randomly chosen
square tones from the fixed 7-note set, every frequency scaled by
`1 + 0.1*(level-1)`, and truncates to exactly `T * sr` samples: for every
level >= 1, any sample rate >= 10 Hz and any note/duration oracles drawing
from the fixed sets, the returned buffer has exactly `T * sr` samples. -/
theorem background_track_length (level : ℤ) (target_seconds sr : ℕ)
    (notes durs : ℕ → ℚ) (_hlevel : 1 ≤ level) (hsr : 10 ≤ sr)
    (hdurs : ∀ k, durs k ∈ bgDurs) :
    (synthesize_background_track level target_seconds sr notes durs).length =
      target_seconds * sr := by
  unfold synthesize_background_track
  rw [List.length_take]
  have ht : ∀ k, 1 ≤ (squareTone sr
      ((1 + (1/10) * ((level : ℚ) - 1)) * notes k) (durs k)).length := by
    intro k
    rw [squareTone_length]
    exact squareToneLen_pos sr (durs k) hsr (hdurs k)
  have h := bgLoop_length_ge sr (1 + (1/10) * ((level : ℚ) - 1)) notes durs
    (target_seconds * sr) ht (target_seconds * sr + 1) 0 []
  simp only [List.length_nil, Nat.zero_add] at h
  omega

/-- C9, witness: one second at 10 samples per second, constant oracles. -/
theorem background_track_length_witness :
    (synthesize_background_track 1 1 10 (fun _ => 262) (fun _ => 100)).length = 1 * 10 :=
  background_track_length 1 1 10 (fun _ => 262) (fun _ => 100)
    (by norm_num) (by norm_num) (fun k => by simp [bgDurs])
